import Mathlib

/-!
Verification of the EchoSmith task/export frontend core.

This file gives a shallow embedding of the task-store and export-rendering
code of the repository and proves the spec's claims about it.

Embedded sources:
- frontend/src/components/ResultPanel.tsx: msToTimestamp, SENTENCE_REGEX,
  buildFallbackSegments, currentSegments, buildSrt, EXPORTABLE_STATUSES,
  canExport, and the local export-content rendering of handleExport.
- the Zustand task store (src/unnamed/part_003): upsertTask, setTasks,
  removeTask, clearAllTasks, setActiveTask, resetUserClearedFlag.
- the cancel mutation of TaskStreamPanel (src/unnamed/part_009).
- the created_at-descending display sort of TaskStreamPanel.

JavaScript numbers only ever hold integral millisecond counts and epoch
timestamps in the embedded code, so they are modelled as Int; JS strings
are modelled as Lean String (sequences of scalar values), with an explicit
UTF-16 length function for the places where `.length` matters.
-/

/-! ## JavaScript string helpers -/

/-- UTF-16 length of a character, as JavaScript `.length` counts it:
astral code points take two code units. -/
def utf16Width (c : Char) : Nat :=
  if 0x10000 ≤ c.toNat then 2 else 1

/-- UTF-16 length of a character list (JavaScript `String.prototype.length`). -/
def utf16Len (chars : List Char) : Nat :=
  match chars with
  | [] => 0
  | c :: more => utf16Width c + utf16Len more

/-- Whitespace as ECMAScript `String.prototype.trim` strips it
(WhiteSpace plus LineTerminator code points). -/
def isJsSpace (c : Char) : Bool :=
  let n := c.toNat
  (9 ≤ n && n ≤ 13) || n = 32 || n = 0xA0 || n = 0x1680 ||
    (0x2000 ≤ n && n ≤ 0x200A) || n = 0x2028 || n = 0x2029 ||
    n = 0x202F || n = 0x205F || n = 0x3000 || n = 0xFEFF

/-- JavaScript `String.prototype.trim` on a character list. -/
def jsTrim (cs : List Char) : List Char :=
  ((cs.dropWhile isJsSpace).reverse.dropWhile isJsSpace).reverse

/-- JavaScript `String.prototype.includes` (substring test). -/
def jsIncludes (hay needle : List Char) : Bool :=
  match hay with
  | [] => needle.isEmpty
  | c :: rest => needle.isPrefixOf (c :: rest) || jsIncludes rest needle

/-- JavaScript `String.prototype.padStart(n, c)`. -/
def padStart (s : String) (n : Nat) (c : Char) : String :=
  if n ≤ s.length then s else String.mk (List.replicate (n - s.length) c) ++ s

/-! ## Data model (frontend/src/lib/api.ts) -/

/-- Task lifecycle states (`TaskStatus` in frontend/src/lib/api.ts). -/
inductive TaskStatus where
  | queued
  | running
  | paused
  | completed
  | failed
  | cancelled
deriving DecidableEq

/-- One entry of `TaskSnapshot.segments`. The consuming code
(`currentSegments`) guards every field with `?? `-defaults, so each field
is modelled as optional. -/
structure RawSegment where
  index : Option Int := none
  start_ms : Option Int := none
  end_ms : Option Int := none
  text : Option String := none
deriving DecidableEq

/-- The task snapshot fields the embedded code reads (`TaskSnapshot` in
frontend/src/lib/api.ts). `progress` and `logs` are not read by any
embedded function and are omitted. -/
structure TaskSnapshot where
  id : String
  status : TaskStatus
  message : String
  result_text : Option String
  segments : List RawSegment
  created_at : Int
deriving DecidableEq

/-- A fully-populated segment as produced by `currentSegments` /
`buildFallbackSegments` (plain `{ start_ms, end_ms, text }` records). -/
structure SimpleSegment where
  start_ms : Int
  end_ms : Int
  text : String
deriving DecidableEq

/-! ## ResultPanel.tsx: timestamps and segment synthesis -/

/-- `msToTimestamp` of ResultPanel.tsx: zero-padded
`HH:MM:SS,mmm` rendering of a millisecond count. -/
def msToTimestamp (ms : Int) : String :=
  let total : Nat := (max 0 ms).toNat
  let hours := total / 3600000
  let minutes := (total % 3600000) / 60000
  let seconds := (total % 60000) / 1000
  let millis := total % 1000
  padStart (Nat.repr hours) 2 '0' ++ ":" ++ padStart (Nat.repr minutes) 2 '0' ++ ":" ++
    padStart (Nat.repr seconds) 2 '0' ++ "," ++ padStart (Nat.repr millis) 3 '0'

/-- The sentence-terminal characters of `SENTENCE_REGEX`
(`/[^。！？!?…\n]+[。！？!?…]?/gu`). -/
def isSentenceTerminal (c : Char) : Bool :=
  c = '。' || c = '！' || c = '？' || c = '!' || c = '?' || c = '…'

/-- All matches of `SENTENCE_REGEX` over a character list: maximal runs of
non-terminal, non-newline characters, each keeping one directly following
terminal; lone terminals and newlines separate matches. `acc` is the
reversed run currently being collected. -/
def sentenceSplitAux : List Char → List Char → List (List Char)
  | [], acc => if acc.isEmpty then [] else [acc.reverse]
  | c :: rest, acc =>
    if c = '\n' then
      if acc.isEmpty then sentenceSplitAux rest []
      else acc.reverse :: sentenceSplitAux rest []
    else if isSentenceTerminal c then
      if acc.isEmpty then sentenceSplitAux rest []
      else (acc.reverse ++ [c]) :: sentenceSplitAux rest []
    else
      sentenceSplitAux rest (c :: acc)

/-- `Array.from(text.matchAll(SENTENCE_REGEX)).map(m => m[0].trim()).filter(Boolean)`:
the trimmed, non-empty sentence matches of a text. -/
def sentencesOf (s : String) : List String :=
  (((sentenceSplitAux s.data []).map jsTrim).filter (fun m => !m.isEmpty)).map
    (fun m => String.mk m)

/-- The cursor loop of `buildFallbackSegments`: one segment per sentence,
`max(1500, length * 120)` milliseconds each, back to back from `cursor`. -/
def allocSegments (cursor : Int) : List String → List SimpleSegment
  | [] => []
  | s :: rest =>
    let duration : Int := max 1500 ((utf16Len s.data : Int) * 120)
    ⟨cursor, cursor + duration, s⟩ :: allocSegments (cursor + duration) rest

/-- `buildFallbackSegments` of ResultPanel.tsx. A null or empty text (both
falsy in JS) yields no segments; a text with no sentence match yields one
segment of `max(2000, length * 120)` ms; otherwise one segment per
sentence via the cursor loop. -/
def buildFallbackSegments : Option String → List SimpleSegment
  | none => []
  | some text =>
    if text = "" then []
    else
      let sentences := sentencesOf text
      if sentences.isEmpty then
        let duration : Int := max 2000 ((utf16Len text.data : Int) * 120)
        [⟨0, duration, String.mk (jsTrim text.data)⟩]
      else allocSegments 0 sentences

/-- `currentSegments` of ResultPanel.tsx: the task's own segments with
defaulted fields when present, otherwise segments synthesized from the
free text. -/
def currentSegments (t : TaskSnapshot) : List SimpleSegment :=
  if t.segments.isEmpty then buildFallbackSegments t.result_text
  else
    t.segments.map (fun seg =>
      let s := seg.start_ms.getD 0
      let tlen : Int := match seg.text with
        | some str => (utf16Len str.data : Int)
        | none => 1
      let e : Int := match seg.end_ms with
        | some e => e
        | none => max (s + 2000) (s + (max tlen 1) * 120)
      ⟨s, e, seg.text.getD ""⟩)

/-- The per-segment SRT blocks of `buildSrt`: 1-based index line, timestamp
line, text line, trailing newline. -/
def srtBlocks (segs : List SimpleSegment) : List String :=
  segs.enum.map (fun p =>
    Nat.repr (p.1 + 1) ++ "\n" ++ msToTimestamp p.2.start_ms ++ " --> " ++
      msToTimestamp p.2.end_ms ++ "\n" ++ p.2.text ++ "\n")

/-- `buildSrt` of ResultPanel.tsx: the blocks joined with a newline
(which leaves one blank line between consecutive blocks). -/
def buildSrt (t : TaskSnapshot) : String :=
  let segs := currentSegments t
  if segs.isEmpty then "" else String.intercalate "\n" (srtBlocks segs)

/-! ## ResultPanel.tsx: export availability -/

/-- `EXPORTABLE_STATUSES` of ResultPanel.tsx. -/
def EXPORTABLE_STATUSES : List TaskStatus :=
  [.paused, .completed, .failed, .cancelled]

/-- The pause marker looked for in `task.message` (the two characters
of the string literal in `task.message?.includes(...)`). -/
def pauseMarker : List Char := "暂停".data

/-- `isPaused` of ResultPanel.tsx (for a present task): status is paused
or the message mentions the pause marker. -/
def isPausedView (t : TaskSnapshot) : Bool :=
  (t.status == TaskStatus.paused) || jsIncludes t.message.data pauseMarker

/-- `canExport` of ResultPanel.tsx (for a present task). -/
def canExport (t : TaskSnapshot) : Bool :=
  isPausedView t || EXPORTABLE_STATUSES.contains t.status

/-! ## Zustand task store (src/unnamed/part_003) -/

/-- The store state: the task table as an insertion-ordered association
list (JS object key order for non-numeric keys), the selected task id,
and the clear-all flag. -/
structure TasksState where
  tasks : List (String × TaskSnapshot)
  activeTaskId : Option String
  userClearedAll : Bool
deriving DecidableEq

/-- JS object spread update `{ ...tasks, [id]: v }`: replace in place when
the key exists, append otherwise. -/
def upsertEntry (id : String) (v : TaskSnapshot) :
    List (String × TaskSnapshot) → List (String × TaskSnapshot)
  | [] => [(id, v)]
  | (k, w) :: rest =>
    if k = id then (k, v) :: rest else (k, w) :: upsertEntry id v rest

/-- `Object.fromEntries(list.map(item => [item.id, item]))`: later
duplicates overwrite earlier ones, keeping the first position. -/
def fromEntries (list : List TaskSnapshot) : List (String × TaskSnapshot) :=
  list.foldl (fun acc t => upsertEntry t.id t acc) []

/-- `setActiveTask` of the store. -/
def setActiveTask (id : Option String) (s : TasksState) : TasksState :=
  { s with activeTaskId := id }

/-- `upsertTask` of the store: merge the snapshot into the table and drop
the clear-all flag. -/
def upsertTask (snap : TaskSnapshot) (s : TasksState) : TasksState :=
  { s with tasks := upsertEntry snap.id snap s.tasks, userClearedAll := false }

/-- `setTasks` of the store: ignored entirely while `userClearedAll` is
set, otherwise the table is rebuilt from the list. -/
def setTasks (list : List TaskSnapshot) (s : TasksState) : TasksState :=
  if s.userClearedAll then s
  else { s with tasks := fromEntries list, userClearedAll := false }

/-- `removeTask` of the store: `delete remaining[id]`, and the selection
is dropped exactly when it pointed at the removed id. -/
def removeTask (id : String) (s : TasksState) : TasksState :=
  { s with
    tasks := s.tasks.filter (fun e => e.1 ≠ id),
    activeTaskId := if s.activeTaskId = some id then none else s.activeTaskId }

/-- `clearAllTasks` of the store. -/
def clearAllTasks (_s : TasksState) : TasksState :=
  { tasks := [], activeTaskId := none, userClearedAll := true }

/-- `resetUserClearedFlag` of the store. -/
def resetUserClearedFlag (s : TasksState) : TasksState :=
  { s with userClearedAll := false }

/-- Association-list lookup in the task table. -/
def lookupTask (k : String) (s : TasksState) : Option TaskSnapshot :=
  (s.tasks.find? (fun e => e.1 == k)).map (fun e => e.2)

/-! ## The cancel mutation (src/unnamed/part_009) -/

/-- Outcome of the backend `DELETE /tasks/id` call as the mutation sees
it: success, an HTTP error with a status code, or any other failure. -/
inductive BackendResult where
  | ok
  | httpError (status : Nat)
  | otherError
deriving DecidableEq

/-- The `cancelMutation` body: fail if nothing is selected; call the
backend and swallow a 404 (task already gone) but rethrow anything else;
then remove the task locally and clear the selection. -/
def cancelFlow (r : BackendResult) (s : TasksState) : Except String TasksState :=
  match s.activeTaskId with
  | none => .error "没有任务可清空"
  | some taskToRemove =>
    match r with
    | .ok => .ok (setActiveTask none (removeTask taskToRemove s))
    | .httpError status =>
      if status = 404 then .ok (setActiveTask none (removeTask taskToRemove s))
      else .error "清空任务失败"
    | .otherError => .error "清空任务失败"

/-! ## Display ordering (TaskStreamPanel.tsx) -/

/-- Stable insertion of a task into a created_at-descending list, as the
comparator `(a, b) => b.created_at - a.created_at` orders it. -/
def insertByCreatedAtDesc (t : TaskSnapshot) :
    List TaskSnapshot → List TaskSnapshot
  | [] => [t]
  | u :: rest =>
    if u.created_at < t.created_at then t :: u :: rest
    else u :: insertByCreatedAtDesc t rest

/-- `Object.values(tasks).sort((a, b) => b.created_at - a.created_at)`:
a stable sort by created_at descending. -/
def sortByCreatedAtDesc (ts : List TaskSnapshot) : List TaskSnapshot :=
  ts.foldl (fun acc t => insertByCreatedAtDesc t acc) []

/-! ## JSON values

`handleExport` renders the structured (json) payload with
`JSON.stringify(payload, null, 2)`; claim C3 re-parses it. JSON documents
are modelled by a mutually inductive value type (so that the printer and
parser are structurally recursive), printed exactly as `JSON.stringify`
with a 2-space indent does, and parsed back by a fuel-bounded
recursive-descent reader in the shape of `JSON.parse`. -/

mutual

/-- A JSON value. Objects keep their fields in writing order. -/
inductive Jval where
  | jstr (s : String)
  | jnum (n : Int)
  | jbool (b : Bool)
  | jnull
  | jarr (es : Jarr)
  | jobj (fs : Jobj)

/-- The element list of a JSON array. -/
inductive Jarr where
  | anil
  | acons (v : Jval) (rest : Jarr)

/-- The field list of a JSON object. -/
inductive Jobj where
  | onil
  | ocons (key : String) (v : Jval) (rest : Jobj)

end

/-- Lowercase hexadecimal digit for a value below 16. -/
def hexLowerDigit (n : Nat) : Char :=
  if n < 10 then Char.ofNat (48 + n) else Char.ofNat (87 + n)

/-- How `JSON.stringify` escapes one character inside a string literal:
quote, backslash and the five short control escapes get a backslash form,
any other control character becomes `\u00xx`, everything else is copied. -/
def escapeChar (c : Char) : List Char :=
  if c = '"' then ['\\', '"']
  else if c = '\\' then ['\\', '\\']
  else if c = '\x08' then ['\\', 'b']
  else if c = '\x0c' then ['\\', 'f']
  else if c = '\n' then ['\\', 'n']
  else if c = '\r' then ['\\', 'r']
  else if c = '\t' then ['\\', 't']
  else if c.toNat < 0x20 then
    let n := c.toNat
    '\\' :: 'u' :: '0' :: '0' :: [hexLowerDigit (n / 16), hexLowerDigit (n % 16)]
  else [c]

/-- Escape every character of a string body. -/
def escapeList : List Char → List Char
  | [] => []
  | c :: cs => escapeChar c ++ escapeList cs

/-- A JSON string literal: quoted, escaped body. -/
def quoteString (s : String) : List Char :=
  '"' :: (escapeList s.data ++ ['"'])

/-- Decimal digit character. -/
def digitChar (d : Nat) : Char := Char.ofNat (48 + d)

/-- Decimal rendering of a natural number; `fuel` bounds the recursion and
any `fuel > n / 10` is enough. -/
def natToCharsAux (fuel n : Nat) : List Char :=
  match fuel with
  | 0 => []
  | fuel' + 1 =>
    if n < 10 then [digitChar n]
    else natToCharsAux fuel' (n / 10) ++ [digitChar (n % 10)]

/-- Decimal rendering of a natural number. -/
def natToChars (n : Nat) : List Char := natToCharsAux (n + 1) n

/-- Decimal rendering of an integer, as `JSON.stringify` prints an
integral JS number. -/
def intToChars (n : Int) : List Char :=
  if n < 0 then '-' :: natToChars (-n).toNat else natToChars n.toNat

/-- An indentation run of spaces. -/
def spacesL (n : Nat) : List Char := List.replicate n ' '

mutual

/-- `JSON.stringify(v, null, 2)` on a value sitting at indentation `ind`. -/
def printJson (ind : Nat) : Jval → List Char
  | .jstr s => quoteString s
  | .jnum n => intToChars n
  | .jbool b => if b then ['t', 'r', 'u', 'e'] else ['f', 'a', 'l', 's', 'e']
  | .jnull => ['n', 'u', 'l', 'l']
  | .jarr es =>
    match es with
    | .anil => ['[', ']']
    | .acons _ _ =>
      '[' :: '\n' :: (printItems (ind + 2) es ++ ('\n' :: (spacesL ind ++ [']'])))
  | .jobj fs =>
    match fs with
    | .onil => ['\x7b', '\x7d']
    | .ocons _ _ _ =>
      '\x7b' :: '\n' :: (printFields (ind + 2) fs ++ ('\n' :: (spacesL ind ++ ['\x7d'])))

/-- The comma-and-newline separated, indented element lines of an array;
each element except the last is followed by `,\n`. -/
def printItems (ind : Nat) : Jarr → List Char
  | .anil => []
  | .acons e es =>
    spacesL ind ++ printJson ind e ++
      ((match es with
        | .anil => []
        | .acons _ _ => [',', '\n']) ++ printItems ind es)

/-- The comma-and-newline separated, indented `"key": value` lines of an
object; each field except the last is followed by `,\n`. -/
def printFields (ind : Nat) : Jobj → List Char
  | .onil => []
  | .ocons k v fs =>
    spacesL ind ++ quoteString k ++ (':' :: ' ' :: printJson ind v) ++
      ((match fs with
        | .onil => []
        | .ocons _ _ _ => [',', '\n']) ++ printFields ind fs)

end

/-- `JSON.stringify(v, null, 2)` as a string. -/
def stringify2 (v : Jval) : String := String.mk (printJson 0 v)

/-- The JSON object for one rendered segment. -/
def segmentJson (seg : SimpleSegment) : Jval :=
  .jobj (.ocons "start_ms" (.jnum seg.start_ms)
    (.ocons "end_ms" (.jnum seg.end_ms)
      (.ocons "text" (.jstr seg.text) .onil)))

/-- The segment array of the payload. -/
def segsToJarr : List SimpleSegment → Jarr
  | [] => .anil
  | s :: ss => .acons (segmentJson s) (segsToJarr ss)

/-- The structured export payload built in `handleExport`:
`{ id: task.id, text: task.result_text ?? "", segments: currentSegments(task) }`. -/
def structuredPayload (t : TaskSnapshot) : Jval :=
  .jobj (.ocons "id" (.jstr t.id)
    (.ocons "text" (.jstr (t.result_text.getD ""))
      (.ocons "segments" (.jarr (segsToJarr (currentSegments t))) .onil)))

/-! ## A JSON reader in the shape of JSON.parse -/

/-- The JSON insignificant-whitespace characters. -/
def isWsChar (c : Char) : Bool :=
  c = ' ' || c = '\n' || c = '\t' || c = '\r'

/-- Drop leading JSON whitespace. -/
def skipWs (cs : List Char) : List Char := cs.dropWhile isWsChar

/-- Decimal digit test on the code point. -/
def isDigitCh (c : Char) : Bool := 48 ≤ c.toNat && c.toNat ≤ 57

/-- Value of a hexadecimal digit character, either case. -/
def hexVal (c : Char) : Option Nat :=
  let code := c.toNat
  if 48 ≤ code && code ≤ 57 then some (code - 48)
  else if 97 ≤ code && code ≤ 102 then some (code - 87)
  else if 65 ≤ code && code ≤ 70 then some (code - 55)
  else none

/-- Read a JSON string body after its opening quote, unescaping as
`JSON.parse` does; `acc` holds the reversed characters read so far. -/
def readStringBody : List Char → List Char → Option (String × List Char)
  | [], _ => none
  | c :: rest, acc =>
    if c = '"' then some (String.mk acc.reverse, rest)
    else if c = '\\' then
      match rest with
      | [] => none
      | e :: rest2 =>
        if e = '"' then readStringBody rest2 ('"' :: acc)
        else if e = '\\' then readStringBody rest2 ('\\' :: acc)
        else if e = '/' then readStringBody rest2 ('/' :: acc)
        else if e = 'b' then readStringBody rest2 ('\x08' :: acc)
        else if e = 'f' then readStringBody rest2 ('\x0c' :: acc)
        else if e = 'n' then readStringBody rest2 ('\n' :: acc)
        else if e = 'r' then readStringBody rest2 ('\r' :: acc)
        else if e = 't' then readStringBody rest2 ('\t' :: acc)
        else if e = 'u' then
          match rest2 with
          | h1 :: h2 :: h3 :: h4 :: rest3 =>
            match hexVal h1, hexVal h2, hexVal h3, hexVal h4 with
            | some a, some b, some c3, some d =>
              readStringBody rest3 (Char.ofNat (((a * 16 + b) * 16 + c3) * 16 + d) :: acc)
            | _, _, _, _ => none
          | _ => none
        else none
    else readStringBody rest (c :: acc)

/-- Read a run of decimal digits into an accumulator. -/
def readDigits : List Char → Nat → Nat × List Char
  | [], acc => (acc, [])
  | c :: cs, acc =>
    if isDigitCh c then readDigits cs (acc * 10 + (c.toNat - 48))
    else (acc, c :: cs)

/-- Read an integral JSON number: an optional minus sign and at least one
digit. The embedded payloads only ever hold integral millisecond counts,
so fractions and exponents are not needed. -/
def readNumber (cs : List Char) : Option (Int × List Char) :=
  match cs with
  | [] => none
  | c :: rest =>
    if c = '-' then
      match rest with
      | [] => none
      | c2 :: _ =>
        if isDigitCh c2 then
          let p := readDigits rest 0
          some (-(p.1 : Int), p.2)
        else none
    else if isDigitCh c then
      let p := readDigits (c :: rest) 0
      some ((p.1 : Int), p.2)
    else none

mutual

/-- Read one JSON value; `fuel` bounds the nesting-driven recursion and
any fuel at least the document size is enough. -/
def readVal : Nat → List Char → Option (Jval × List Char)
  | 0, _ => none
  | fuel + 1, cs =>
    match skipWs cs with
    | [] => none
    | c :: rest =>
      if c = '"' then (readStringBody rest []).map (fun p => (.jstr p.1, p.2))
      else if c = '[' then
        let cs2 := skipWs rest
        if cs2.head? = some ']' then some (.jarr .anil, cs2.tail)
        else (readElems fuel cs2).map (fun p => (.jarr p.1, p.2))
      else if c = '\x7b' then
        let cs2 := skipWs rest
        if cs2.head? = some '\x7d' then some (.jobj .onil, cs2.tail)
        else (readMembers fuel cs2).map (fun p => (.jobj p.1, p.2))
      else if c = 't' then
        match rest with
        | 'r' :: 'u' :: 'e' :: rest2 => some (.jbool true, rest2)
        | _ => none
      else if c = 'f' then
        match rest with
        | 'a' :: 'l' :: 's' :: 'e' :: rest2 => some (.jbool false, rest2)
        | _ => none
      else if c = 'n' then
        match rest with
        | 'u' :: 'l' :: 'l' :: rest2 => some (.jnull, rest2)
        | _ => none
      else (readNumber (c :: rest)).map (fun p => (.jnum p.1, p.2))

/-- Read the elements of a non-empty array, positioned at its first
element, up to and including the closing bracket. -/
def readElems : Nat → List Char → Option (Jarr × List Char)
  | 0, _ => none
  | fuel + 1, cs =>
    match readVal fuel cs with
    | none => none
    | some (v, rest) =>
      let cs2 := skipWs rest
      if cs2.head? = some ',' then
        match readElems fuel cs2.tail with
        | none => none
        | some (vs, rest3) => some (.acons v vs, rest3)
      else if cs2.head? = some ']' then some (.acons v .anil, cs2.tail)
      else none

/-- Read the fields of a non-empty object, positioned at its first key,
up to and including the closing brace. -/
def readMembers : Nat → List Char → Option (Jobj × List Char)
  | 0, _ => none
  | fuel + 1, cs =>
    match skipWs cs with
    | '"' :: rest =>
      match readStringBody rest [] with
      | none => none
      | some (k, rest2) =>
        match skipWs rest2 with
        | ':' :: rest3 =>
          match readVal fuel rest3 with
          | none => none
          | some (v, rest4) =>
            let cs2 := skipWs rest4
            if cs2.head? = some ',' then
              match readMembers fuel cs2.tail with
              | none => none
              | some (ms, rest6) => some (.ocons k v ms, rest6)
            else if cs2.head? = some '\x7d' then some (.ocons k v .onil, cs2.tail)
            else none
        | _ => none
    | _ => none

end

/-- `JSON.parse`: read one value and require only whitespace after it.
The fuel `length + 1` is enough for any document (proved below for
printed documents). -/
def parseJson (s : String) : Option Jval :=
  match readVal (s.data.length + 1) s.data with
  | some (v, rest) => if skipWs rest = [] then some v else none
  | none => none

/-! ## Extracting the payload fields back out of a parsed value -/

/-- Lookup of a key in an object's field list (payload keys are unique). -/
def objFieldAux (k : String) : Jobj → Option Jval
  | .onil => none
  | .ocons k2 v fs => if k2 = k then some v else objFieldAux k fs

/-- Lookup of a key in a JSON object value. -/
def objField (k : String) : Jval → Option Jval
  | .jobj fs => objFieldAux k fs
  | _ => none

/-- A JSON value as a string, when it is one. -/
def asString : Jval → Option String
  | .jstr s => some s
  | _ => none

/-- Decode one `{ start_ms, end_ms, text }` object back to a segment. -/
def segOfJval (j : Jval) : Option SimpleSegment :=
  match objField "start_ms" j, objField "end_ms" j, objField "text" j with
  | some (.jnum a), some (.jnum b), some (.jstr s) => some ⟨a, b, s⟩
  | _, _, _ => none

/-- Decode an element list of segment objects. -/
def decodeSegsAux : Jarr → Option (List SimpleSegment)
  | .anil => some []
  | .acons j js =>
    match segOfJval j, decodeSegsAux js with
    | some s, some ss => some (s :: ss)
    | _, _ => none

/-- Decode a JSON array of segment objects back to a segment list. -/
def decodeSegs : Jval → Option (List SimpleSegment)
  | .jarr es => decodeSegsAux es
  | _ => none

/-! ## Local export rendering (handleExport of ResultPanel.tsx) -/

/-- The three export formats. -/
inductive ExportFormat where
  | txt
  | srt
  | json
deriving DecidableEq

/-- The local export content `handleExport` builds when the backend does
not supply one: raw `result_text ?? ""` for txt, the pretty-printed
structured payload for json, `buildSrt` for srt. -/
def exportContent (t : TaskSnapshot) : ExportFormat → String
  | .txt => t.result_text.getD ""
  | .json => stringify2 (structuredPayload t)
  | .srt => buildSrt t

/-- The export outcome: `handleExport` throws `未生成导出内容` exactly when
the rendered content is empty, and otherwise delivers the content. -/
def exportRender (t : TaskSnapshot) (f : ExportFormat) : Except String String :=
  let content := exportContent t f
  if content = "" then .error "未生成导出内容" else .ok content

/-! ## Sizes of JSON values (fuel bounds for the reader) -/

mutual

/-- Fuel needed by `readVal` on a printed value. -/
def jsize : Jval → Nat
  | .jstr _ => 1
  | .jnum _ => 1
  | .jbool _ => 1
  | .jnull => 1
  | .jarr es => 1 + asize es
  | .jobj fs => 1 + osize fs

/-- Fuel needed by `readElems` on printed array elements. -/
def asize : Jarr → Nat
  | .anil => 1
  | .acons e es => 1 + jsize e + asize es

/-- Fuel needed by `readMembers` on printed object fields. -/
def osize : Jobj → Nat
  | .onil => 1
  | .ocons _ v fs => 1 + jsize v + osize fs

end

/-- Whether a character list does not start with a decimal digit (so a
number token just before it ends where it should). -/
def headNotDigit : List Char → Bool
  | [] => true
  | c :: _ => !isDigitCh c

/-! ## Concrete probe tasks used by counterexamples and witnesses -/

/-- A task whose free text is a single sentence-terminal character: the
sentence regex finds no match in it. -/
def tPunct : TaskSnapshot :=
  { id := "t-fallback", status := .completed, message := "",
    result_text := some "。", segments := [], created_at := 0 }

/-- A task holding both a stored transcript and two structured segments. -/
def tTextProbe : TaskSnapshot :=
  { id := "t-text", status := .completed, message := "",
    result_text := some "ZZZ",
    segments := [{ index := some 0, start_ms := some 0, end_ms := some 1000, text := some "A" },
                 { index := some 1, start_ms := some 1000, end_ms := some 2000, text := some "B" }],
    created_at := 0 }

/-- A task with neither text nor segments. -/
def tEmptyProbe : TaskSnapshot :=
  { id := "t-empty", status := .completed, message := "",
    result_text := none, segments := [], created_at := 0 }

/-- A queued task with accumulated text. -/
def tQueuedProbe : TaskSnapshot :=
  { id := "t-q", status := .queued, message := "",
    result_text := some "hello", segments := [], created_at := 0 }

/-- A task with free text but no structured segments. -/
def tNoSegsProbe : TaskSnapshot :=
  { id := "t1", status := .completed, message := "",
    result_text := some "Hi", segments := [], created_at := 0 }

/-- A task with one fully-populated structured segment. -/
def tSegProbe : TaskSnapshot :=
  { id := "w3", status := .completed, message := "",
    result_text := some "T",
    segments := [{ index := some 0, start_ms := some 10, end_ms := some 20, text := some "A" }],
    created_at := 0 }

/-! ## Store lemmas -/

theorem filter_ne_idem (id : String) (l : List (String × TaskSnapshot)) :
    (l.filter (fun e => e.1 ≠ id)).filter (fun e => e.1 ≠ id) =
      l.filter (fun e => e.1 ≠ id) := by
  induction l with
  | nil => rfl
  | cons e rest ih =>
    by_cases h : e.1 = id <;> simp [List.filter_cons, h, ih]

theorem find?_filter_ne (id k : String) (hk : k ≠ id)
    (l : List (String × TaskSnapshot)) :
    (l.filter (fun e => e.1 ≠ id)).find? (fun e => e.1 == k) =
      l.find? (fun e => e.1 == k) := by
  induction l with
  | nil => rfl
  | cons e rest ih =>
    by_cases h : e.1 = id
    · rw [List.filter_cons_of_neg (by simp [h]),
        List.find?_cons_of_neg _ (by simp [h]; exact fun hkk => hk hkk.symm)]
      exact ih
    · by_cases hek : e.1 = k
      · rw [List.filter_cons_of_pos (by simp [h]),
          List.find?_cons_of_pos _ (by simp [hek]),
          List.find?_cons_of_pos _ (by simp [hek])]
      · rw [List.filter_cons_of_pos (by simp [h]),
          List.find?_cons_of_neg _ (by simp [hek]),
          List.find?_cons_of_neg _ (by simp [hek])]
        exact ih

theorem find?_filter_self (id : String) (l : List (String × TaskSnapshot)) :
    (l.filter (fun e => e.1 ≠ id)).find? (fun e => e.1 == id) = none := by
  induction l with
  | nil => rfl
  | cons e rest ih =>
    by_cases h : e.1 = id
    · rw [List.filter_cons_of_neg (by simp [h])]
      exact ih
    · rw [List.filter_cons_of_pos (by simp [h]),
        List.find?_cons_of_neg _ (by simp [h])]
      exact ih

theorem filter_ne_of_find?_none (id : String) (l : List (String × TaskSnapshot))
    (h : l.find? (fun e => e.1 == id) = none) :
    l.filter (fun e => e.1 ≠ id) = l := by
  induction l with
  | nil => rfl
  | cons e rest ih =>
    by_cases he : e.1 = id
    · rw [List.find?_cons_of_pos _ (by simp [he])] at h
      exact Option.noConfusion h
    · rw [List.find?_cons_of_neg _ (by simp [he])] at h
      rw [List.filter_cons_of_pos (by simp [he]), ih h]

theorem find?_upsertEntry_self (id : String) (v : TaskSnapshot)
    (l : List (String × TaskSnapshot)) :
    (upsertEntry id v l).find? (fun e => e.1 == id) = some (id, v) ∨
      ∃ k, k = id ∧ (upsertEntry id v l).find? (fun e => e.1 == id) = some (k, v) := by
  induction l with
  | nil => left; simp [upsertEntry, List.find?_cons]
  | cons e rest ih =>
    by_cases h : e.1 = id
    · right
      exact ⟨e.1, h, by simp [upsertEntry, h, List.find?_cons]⟩
    · rcases ih with ih | ⟨k, hk, ih⟩
      · left; simp [upsertEntry, h, List.find?_cons, ih]
      · right; exact ⟨k, hk, by simp [upsertEntry, h, List.find?_cons, ih]⟩

theorem lookupTask_upsertTask_self (snap : TaskSnapshot) (s : TasksState) :
    lookupTask snap.id (upsertTask snap s) = some snap := by
  rcases find?_upsertEntry_self snap.id snap s.tasks with h | ⟨k, _, h⟩ <;>
    simp [lookupTask, upsertTask, h]

/-! ## Display-order lemmas -/

theorem perm_insertByCreatedAtDesc (t : TaskSnapshot) (l : List TaskSnapshot) :
    List.Perm (insertByCreatedAtDesc t l) (t :: l) := by
  induction l with
  | nil => rfl
  | cons u rest ih =>
    by_cases h : u.created_at < t.created_at
    · simp [insertByCreatedAtDesc, h]
    · simp only [insertByCreatedAtDesc, h, if_false]
      exact (ih.cons u).trans (List.Perm.swap t u rest)

theorem pairwise_insertByCreatedAtDesc (t : TaskSnapshot) (l : List TaskSnapshot)
    (hl : List.Pairwise (fun a b => b.created_at ≤ a.created_at) l) :
    List.Pairwise (fun a b => b.created_at ≤ a.created_at)
      (insertByCreatedAtDesc t l) := by
  induction l with
  | nil => simp [insertByCreatedAtDesc]
  | cons u rest ih =>
    rcases List.pairwise_cons.mp hl with ⟨hu, hrest⟩
    by_cases h : u.created_at < t.created_at
    · simp only [insertByCreatedAtDesc, h, if_true]
      refine List.pairwise_cons.mpr ⟨?_, hl⟩
      intro x hx
      rcases List.mem_cons.mp hx with rfl | hx
      · exact le_of_lt h
      · exact le_trans (hu x hx) (le_of_lt h)
    · simp only [insertByCreatedAtDesc, h, if_false]
      refine List.pairwise_cons.mpr ⟨?_, ih hrest⟩
      intro x hx
      have hx' := (perm_insertByCreatedAtDesc t rest).mem_iff.mp hx
      rcases List.mem_cons.mp hx' with rfl | hx'
      · exact le_of_not_lt h
      · exact hu x hx'

theorem sort_aux_perm (ts acc : List TaskSnapshot) :
    List.Perm (ts.foldl (fun acc t => insertByCreatedAtDesc t acc) acc) (acc ++ ts) := by
  induction ts generalizing acc with
  | nil => simp
  | cons t rest ih =>
    rw [List.foldl_cons]
    have h1 := ih (insertByCreatedAtDesc t acc)
    have h2 : List.Perm (insertByCreatedAtDesc t acc ++ rest) (t :: (acc ++ rest)) :=
      (perm_insertByCreatedAtDesc t acc).append_right rest
    have h3 : List.Perm (t :: (acc ++ rest)) (acc ++ t :: rest) := List.perm_middle.symm
    exact h1.trans (h2.trans h3)

theorem sort_aux_pairwise (ts acc : List TaskSnapshot)
    (hacc : List.Pairwise (fun a b => b.created_at ≤ a.created_at) acc) :
    List.Pairwise (fun a b => b.created_at ≤ a.created_at)
      (ts.foldl (fun acc t => insertByCreatedAtDesc t acc) acc) := by
  induction ts generalizing acc with
  | nil => exact hacc
  | cons t rest ih => exact ih _ (pairwise_insertByCreatedAtDesc t acc hacc)

/-! ## Fallback-segment lemmas -/

theorem allocSegments_duration (l : List String) (cursor : Int) :
    ∀ seg ∈ allocSegments cursor l,
      seg.end_ms = seg.start_ms + max 1500 ((utf16Len seg.text.data : Int) * 120) := by
  induction l generalizing cursor with
  | nil => intro seg h; simp [allocSegments] at h
  | cons s rest ih =>
    intro seg h
    rcases List.mem_cons.mp h with rfl | h
    · rfl
    · exact ih _ seg h

theorem allocSegments_chain (l : List String) (cursor : Int) :
    List.Chain' (fun a b => b.start_ms = a.end_ms) (allocSegments cursor l) := by
  induction l generalizing cursor with
  | nil => simp [allocSegments]
  | cons s rest ih =>
    cases rest with
    | nil => simp [allocSegments]
    | cons s2 rest2 =>
      refine List.chain'_cons.mpr ⟨rfl, ih _⟩

/-! ## Claim C1: SRT export of three fixed segments -/

/-- C1: for every task whose segment list is exactly
[(0,2000,"A"), (2000,4000,"B"), (4000,6000,"C")], SRT export produces
exactly the three blocks (index line, zero-padded timestamp line, text
line, trailing newline), joined by the blank separator, the first block
being exactly `1\n00:00:00,000 --> 00:00:02,000\nA\n`. -/
theorem srt_export_three_blocks :
    ∀ (t : TaskSnapshot) (i1 i2 i3 : Option Int),
      t.segments = [{ index := i1, start_ms := some 0, end_ms := some 2000, text := some "A" },
                    { index := i2, start_ms := some 2000, end_ms := some 4000, text := some "B" },
                    { index := i3, start_ms := some 4000, end_ms := some 6000, text := some "C" }] →
      srtBlocks (currentSegments t) =
        ["1\n00:00:00,000 --> 00:00:02,000\nA\n",
         "2\n00:00:02,000 --> 00:00:04,000\nB\n",
         "3\n00:00:04,000 --> 00:00:06,000\nC\n"] ∧
      buildSrt t =
        "1\n00:00:00,000 --> 00:00:02,000\nA\n" ++ "\n" ++
          "2\n00:00:02,000 --> 00:00:04,000\nB\n" ++ "\n" ++
          "3\n00:00:04,000 --> 00:00:06,000\nC\n" := by
  intro t i1 i2 i3 h
  have hc : currentSegments t =
      [⟨0, 2000, "A"⟩, ⟨2000, 4000, "B"⟩, ⟨4000, 6000, "C"⟩] := by
    simp [currentSegments, h]
  refine ⟨?_, ?_⟩
  · rw [hc]; decide
  · rw [buildSrt, hc]; decide

/-- Witness for C1 at a concrete task. -/
theorem srt_export_three_blocks_witness :
    srtBlocks (currentSegments
      { id := "w1", status := .completed, message := "", result_text := none,
        segments := [{ index := some 0, start_ms := some 0, end_ms := some 2000, text := some "A" },
                     { index := some 1, start_ms := some 2000, end_ms := some 4000, text := some "B" },
                     { index := some 2, start_ms := some 4000, end_ms := some 6000, text := some "C" }],
        created_at := 0 }) =
      ["1\n00:00:00,000 --> 00:00:02,000\nA\n",
       "2\n00:00:02,000 --> 00:00:04,000\nB\n",
       "3\n00:00:04,000 --> 00:00:06,000\nC\n"] :=
  (srt_export_three_blocks _ (some 0) (some 1) (some 2) rfl).1

/-! ## Claim C2: synthesized fallback segments -/

/-- C2 counterexample: the task whose text is `。` has non-empty free text
and no segments, yet its single synthesized segment has duration 2000 ms,
not max(1500, 120 × 1) = 1500 ms as the claim states. -/
theorem fallback_duration_counterexample :
    tPunct.result_text = some "。" ∧ tPunct.segments = [] ∧
    currentSegments tPunct = [⟨0, 2000, "。"⟩] ∧
    (2000 : Int) ≠ max 1500 ((utf16Len "。".data : Int) * 120) := by
  refine ⟨rfl, rfl, ?_, by decide⟩
  decide

/-- C2 amended: when the sentence split of the free text yields at least
one non-empty sentence, the synthesized segments are the cursor
allocation: each segment lasts max(1500 ms, 120 ms × its character
count), consecutive segments meet with zero gap, and the first starts at
0. When the split of a non-empty text yields no sentence, the code
instead emits exactly one segment from 0 of duration
max(2000 ms, 120 ms × text length) holding the trimmed text. -/
theorem fallback_segments_amended :
    (∀ text : String, sentencesOf text ≠ [] →
      buildFallbackSegments (some text) = allocSegments 0 (sentencesOf text) ∧
      (∀ seg ∈ buildFallbackSegments (some text),
        seg.end_ms = seg.start_ms + max 1500 ((utf16Len seg.text.data : Int) * 120)) ∧
      List.Chain' (fun a b => b.start_ms = a.end_ms) (buildFallbackSegments (some text)) ∧
      (∀ seg segs', buildFallbackSegments (some text) = seg :: segs' → seg.start_ms = 0)) ∧
    (∀ text : String, text ≠ "" → sentencesOf text = [] →
      buildFallbackSegments (some text) =
        [⟨0, max 2000 ((utf16Len text.data : Int) * 120), String.mk (jsTrim text.data)⟩]) := by
  constructor
  · intro text h
    have hne : text ≠ "" := by
      intro he
      exact h (by rw [he]; rfl)
    have hse : (sentencesOf text).isEmpty = false := by
      cases hs : sentencesOf text with
      | nil => exact absurd hs h
      | cons a l => rfl
    have heq : buildFallbackSegments (some text) = allocSegments 0 (sentencesOf text) := by
      simp only [buildFallbackSegments, if_neg hne, hse, Bool.false_eq_true, if_false]
    refine ⟨heq, ?_, ?_, ?_⟩
    · rw [heq]; exact allocSegments_duration _ 0
    · rw [heq]; exact allocSegments_chain _ 0
    · intro seg segs' hcons
      rw [heq] at hcons
      rcases hs : sentencesOf text with _ | ⟨s, rest⟩
      · exact absurd hs h
      · rw [hs] at hcons
        simp only [allocSegments] at hcons
        have h0 : (⟨0, 0 + max 1500 ((utf16Len s.data : Int) * 120), s⟩ : SimpleSegment) = seg :=
          (List.cons.injEq _ _ _ _).mp hcons |>.1
        rw [← h0]
  · intro text hne hse
    simp only [buildFallbackSegments, if_neg hne, hse, List.isEmpty_nil, if_true]

/-- Witness for C2's amended claim at a concrete two-sentence text (the
sentence branch) and at a lone terminal character (the no-sentence
branch). -/
theorem fallback_segments_amended_witness :
    (sentencesOf "你好。世界" ≠ [] ∧
      buildFallbackSegments (some "你好。世界") = allocSegments 0 (sentencesOf "你好。世界")) ∧
    (("！" : String) ≠ "" ∧ sentencesOf "！" = [] ∧
      buildFallbackSegments (some "！") =
        [⟨0, max 2000 ((utf16Len "！".data : Int) * 120), String.mk (jsTrim "！".data)⟩]) :=
  ⟨⟨by decide, (fallback_segments_amended.1 "你好。世界" (by decide)).1⟩,
   ⟨by decide, by decide, fallback_segments_amended.2 "！" (by decide) (by decide)⟩⟩

/-! ## Claim C4: text export -/

/-- C4 counterexample: a task with segments present whose txt export is
the stored transcript, not the concatenation of segment texts. -/
theorem text_export_counterexample :
    tTextProbe.segments ≠ [] ∧
    exportContent tTextProbe ExportFormat.txt = "ZZZ" ∧
    String.join ((currentSegments tTextProbe).map (fun seg => seg.text)) = "AB" ∧
    exportContent tTextProbe ExportFormat.txt ≠
      String.join ((currentSegments tTextProbe).map (fun seg => seg.text)) := by
  refine ⟨by decide, rfl, by decide, by decide⟩

/-- C4 amended: txt export always renders `result_text ?? ""`, whether or
not segments are present; in particular it is unchanged under any
replacement of the segment list. -/
theorem text_export_amended :
    ∀ (t : TaskSnapshot) (segs : List RawSegment),
      exportContent t ExportFormat.txt = t.result_text.getD "" ∧
      exportContent { t with segments := segs } ExportFormat.txt =
        exportContent t ExportFormat.txt :=
  fun _ _ => ⟨rfl, rfl⟩

/-! ## Claim C5: export of an empty task -/

theorem stringify2_obj_ne_empty (k : String) (v : Jval) (fs : Jobj) :
    stringify2 (Jval.jobj (Jobj.ocons k v fs)) ≠ "" := by
  intro hcontr
  have hd : ('\x7b' :: '\n' :: (printFields 2 (Jobj.ocons k v fs) ++
      ('\n' :: (spacesL 0 ++ ['\x7d']))) : List Char) = [] :=
    congrArg String.data hcontr
  exact List.noConfusion hd

/-- The json format never takes the empty-content error branch: the
payload always prints as a non-empty object literal. -/
theorem exportRender_json_ok (t : TaskSnapshot) :
    exportRender t ExportFormat.json = Except.ok (stringify2 (structuredPayload t)) := by
  have hne : stringify2 (structuredPayload t) ≠ "" := by
    rw [structuredPayload]
    exact stringify2_obj_ne_empty _ _ _
  simp [exportRender, exportContent, hne]

/-- C5 counterexample: on a task with neither text nor segments, the json
format still renders a (non-empty) payload and raises no error. -/
theorem export_error_counterexample :
    tEmptyProbe.result_text.getD "" = "" ∧ tEmptyProbe.segments = [] ∧
    exportRender tEmptyProbe ExportFormat.json =
      Except.ok (stringify2 (structuredPayload tEmptyProbe)) :=
  ⟨rfl, rfl, exportRender_json_ok tEmptyProbe⟩

/-- C5 amended: for a task with neither text nor segments, the txt and
srt formats fail with the export error, but the json format succeeds with
the rendered payload. -/
theorem export_empty_task_amended :
    ∀ t : TaskSnapshot, t.result_text.getD "" = "" → t.segments = [] →
      exportRender t ExportFormat.txt = Except.error "未生成导出内容" ∧
      exportRender t ExportFormat.srt = Except.error "未生成导出内容" ∧
      exportRender t ExportFormat.json = Except.ok (stringify2 (structuredPayload t)) := by
  intro t h1 h2
  have hsrt : buildSrt t = "" := by
    have hcur : currentSegments t = [] := by
      simp only [currentSegments, h2, List.isEmpty_nil, if_true]
      cases htext : t.result_text with
      | none => rfl
      | some s =>
        have hs : s = "" := by rw [htext] at h1; exact h1
        rw [hs]
        rfl
    simp only [buildSrt, hcur, List.isEmpty_nil, if_true]
  refine ⟨?_, ?_, exportRender_json_ok t⟩
  · simp [exportRender, exportContent, h1]
  · simp [exportRender, exportContent, hsrt]

/-- Witness for C5's amended claim at the empty probe task. -/
theorem export_empty_task_amended_witness :
    (tEmptyProbe.result_text.getD "" = "" ∧ tEmptyProbe.segments = []) ∧
    exportRender tEmptyProbe ExportFormat.txt = Except.error "未生成导出内容" :=
  ⟨⟨rfl, rfl⟩, (export_empty_task_amended tEmptyProbe rfl rfl).1⟩

/-! ## Claim C6: cancelling twice -/

/-- C6: removing the same id from the task table twice yields the same
state as removing it once, and a second cancel aimed at the same id after
a completed cancel (the backend then answers 404) raises no error and
returns exactly the state the first cancel produced. -/
theorem cancel_twice_idempotent :
    ∀ (s : TasksState) (id : String),
      removeTask id (removeTask id s) = removeTask id s ∧
      cancelFlow (BackendResult.httpError 404)
          (setActiveTask (some id) (setActiveTask none (removeTask id s))) =
        Except.ok (setActiveTask none (removeTask id s)) := by
  intro s id
  constructor
  · by_cases h : s.activeTaskId = some id <;>
      simp [removeTask, h, filter_ne_idem]
  · simp [cancelFlow, setActiveTask, removeTask, filter_ne_idem]

/-! ## Claim C7: display order -/

/-- C7: the displayed task list is a permutation of the store's tasks in
which every earlier entry has a created_at at least as large as every
later one (created_at descending). -/
theorem tasks_sorted_by_created_at_desc :
    ∀ ts : List TaskSnapshot,
      List.Perm (sortByCreatedAtDesc ts) ts ∧
      List.Pairwise (fun a b => b.created_at ≤ a.created_at)
        (sortByCreatedAtDesc ts) := by
  intro ts
  constructor
  · simpa using sort_aux_perm ts []
  · exact sort_aux_pairwise ts [] (by simp)

/-! ## Claim C8: export availability -/

/-- C8 counterexample: a queued task (whose message lacks the pause
marker) cannot export — export is not available at arbitrary points of a
job's life. -/
theorem export_any_status_counterexample :
    tQueuedProbe.status = TaskStatus.queued ∧ canExport tQueuedProbe = false := by
  exact ⟨rfl, by decide⟩

/-- C8 amended: export is available exactly when the task's status is
paused, completed, failed or cancelled, or its message contains the pause
marker; it is not available for a queued or (plainly) running task. -/
theorem export_availability_amended :
    ∀ t : TaskSnapshot,
      canExport t =
        (EXPORTABLE_STATUSES.contains t.status || jsIncludes t.message.data pauseMarker) := by
  intro t
  obtain ⟨id, st, msg, rt, segs, ca⟩ := t
  cases st <;>
    simp [canExport, isPausedView, EXPORTABLE_STATUSES, Bool.or_comm, beq_iff_eq]

/-! ## Claim C9: the clear-all flag -/

/-- C9: clearAllTasks raises the userClearedAll flag; while the flag is
set, setTasks is the identity on the store; and upsertTask always resets
the flag while merging the snapshot (leaving the selection alone), so the
snapshot is then found under its id. -/
theorem clear_flag_store_behavior :
    ∀ (s : TasksState) (list : List TaskSnapshot) (snap : TaskSnapshot),
      (clearAllTasks s).userClearedAll = true ∧
      (s.userClearedAll = true → setTasks list s = s) ∧
      (upsertTask snap s).userClearedAll = false ∧
      (upsertTask snap s).tasks = upsertEntry snap.id snap s.tasks ∧
      (upsertTask snap s).activeTaskId = s.activeTaskId ∧
      lookupTask snap.id (upsertTask snap s) = some snap := by
  intro s list snap
  refine ⟨rfl, ?_, rfl, rfl, rfl, lookupTask_upsertTask_self snap s⟩
  intro h
  simp [setTasks, h]

/-- Witness for C9 at a concrete cleared store. -/
theorem clear_flag_store_behavior_witness :
    setTasks [tQueuedProbe] (clearAllTasks { tasks := [], activeTaskId := none, userClearedAll := false }) =
      clearAllTasks { tasks := [], activeTaskId := none, userClearedAll := false } :=
  (clear_flag_store_behavior
    (clearAllTasks { tasks := [], activeTaskId := none, userClearedAll := false })
    [tQueuedProbe] tQueuedProbe).2.1 rfl

/-! ## Claim C10: removeTask frame conditions -/

/-- C10: removeTask only touches the entry for the removed id: lookups of
every other id are unchanged, the removed id is gone, the selection is
nulled exactly when it pointed at the removed id, the clear-all flag is
untouched, and removing an absent id leaves the table unchanged. -/
theorem removeTask_frame :
    ∀ (s : TasksState) (id : String),
      (∀ k, k ≠ id → lookupTask k (removeTask id s) = lookupTask k s) ∧
      lookupTask id (removeTask id s) = none ∧
      (removeTask id s).activeTaskId =
        (if s.activeTaskId = some id then none else s.activeTaskId) ∧
      (removeTask id s).userClearedAll = s.userClearedAll ∧
      (lookupTask id s = none → (removeTask id s).tasks = s.tasks) := by
  intro s id
  refine ⟨?_, ?_, rfl, rfl, ?_⟩
  · intro k hk
    simp only [lookupTask, removeTask]
    rw [find?_filter_ne id k hk]
  · simp only [lookupTask, removeTask]
    rw [find?_filter_self]
    rfl
  · intro h
    simp only [lookupTask] at h
    rcases hf : s.tasks.find? (fun e => e.1 == id) with _ | e
    · simp only [removeTask]
      exact filter_ne_of_find?_none id s.tasks hf
    · rw [hf] at h; simp at h

/-- Witness for C10 at a concrete one-entry store. -/
theorem removeTask_frame_witness :
    lookupTask "other"
        (removeTask "gone" { tasks := [("other", tQueuedProbe)], activeTaskId := none, userClearedAll := false }) =
      lookupTask "other" { tasks := [("other", tQueuedProbe)], activeTaskId := none, userClearedAll := false } :=
  (removeTask_frame { tasks := [("other", tQueuedProbe)], activeTaskId := none, userClearedAll := false }
    "gone").1 "other" (by decide)

/-! ## JSON reader lemmas: whitespace, dispatch, congruence -/

theorem skipWs_cons_of_neg (c : Char) (cs : List Char) (h : isWsChar c = false) :
    skipWs (c :: cs) = c :: cs := by
  simp [skipWs, List.dropWhile_cons, h]

theorem skipWs_append_ws (ws cs : List Char) (h : ws.all isWsChar = true) :
    skipWs (ws ++ cs) = skipWs cs := by
  induction ws with
  | nil => rfl
  | cons w ws ih =>
    rw [List.all_cons, Bool.and_eq_true] at h
    rw [List.cons_append]
    simp only [skipWs, List.dropWhile_cons, h.1, if_true]
    exact ih h.2

theorem skipWs_idem (cs : List Char) : skipWs (skipWs cs) = skipWs cs := by
  induction cs with
  | nil => rfl
  | cons c cs ih =>
    by_cases h : isWsChar c
    · simpa [skipWs, List.dropWhile_cons, h] using ih
    · simp [skipWs, List.dropWhile_cons, h]

theorem readVal_congr (fuel : Nat) (cs cs' : List Char) (h : skipWs cs = skipWs cs') :
    readVal fuel cs = readVal fuel cs' := by
  cases fuel with
  | zero => rfl
  | succ f => simp only [readVal, h]

theorem readElems_congr (fuel : Nat) (cs cs' : List Char) (h : skipWs cs = skipWs cs') :
    readElems fuel cs = readElems fuel cs' := by
  cases fuel with
  | zero => rfl
  | succ f => simp only [readElems, readVal_congr f cs cs' h]

theorem readMembers_congr (fuel : Nat) (cs cs' : List Char) (h : skipWs cs = skipWs cs') :
    readMembers fuel cs = readMembers fuel cs' := by
  cases fuel with
  | zero => rfl
  | succ f => simp only [readMembers, h]

theorem ws_not_digit (c : Char) (h : isWsChar c = true) : isDigitCh c = false := by
  simp only [isWsChar, Bool.or_eq_true, decide_eq_true_eq] at h
  rcases h with ((h | h) | h) | h <;> (subst h; decide)

theorem headNotDigit_ws (ws : List Char) (x : Char) (rest : List Char)
    (hws : ws.all isWsChar = true) (hx : isDigitCh x = false) :
    headNotDigit (ws ++ (x :: rest)) = true := by
  cases ws with
  | nil => simp [headNotDigit, hx]
  | cons w ws =>
    rw [List.all_cons, Bool.and_eq_true] at hws
    simp [headNotDigit, ws_not_digit w hws.1]

/-! ## JSON reader lemmas: string bodies -/

theorem hexVal_hexLowerDigit : ∀ m : Nat, m < 16 → hexVal (hexLowerDigit m) = some m := by
  decide

theorem readStringBody_escapeChar (c : Char) (tail acc : List Char) :
    readStringBody (escapeChar c ++ tail) acc = readStringBody tail (c :: acc) := by
  by_cases h1 : c = '"'
  · subst h1
    rw [show escapeChar '"' = ['\\', '"'] from by decide, readStringBody.eq_def]
    simp
  by_cases h2 : c = '\\'
  · subst h2
    rw [show escapeChar '\\' = ['\\', '\\'] from by decide, readStringBody.eq_def]
    simp
  by_cases h3 : c = '\x08'
  · subst h3
    rw [show escapeChar '\x08' = ['\\', 'b'] from by decide, readStringBody.eq_def]
    simp
  by_cases h4 : c = '\x0c'
  · subst h4
    rw [show escapeChar '\x0c' = ['\\', 'f'] from by decide, readStringBody.eq_def]
    simp
  by_cases h5 : c = '\n'
  · subst h5
    rw [show escapeChar '\n' = ['\\', 'n'] from by decide, readStringBody.eq_def]
    simp
  by_cases h6 : c = '\r'
  · subst h6
    rw [show escapeChar '\r' = ['\\', 'r'] from by decide, readStringBody.eq_def]
    simp
  by_cases h7 : c = '\t'
  · subst h7
    rw [show escapeChar '\t' = ['\\', 't'] from by decide, readStringBody.eq_def]
    simp
  by_cases h8 : c.toNat < 0x20
  · rw [show escapeChar c =
        ['\\', 'u', '0', '0', hexLowerDigit (c.toNat / 16), hexLowerDigit (c.toNat % 16)] from by
      simp [escapeChar, h1, h2, h3, h4, h5, h6, h7, h8]]
    have hhi : hexVal (hexLowerDigit (c.toNat / 16)) = some (c.toNat / 16) :=
      hexVal_hexLowerDigit _ (by omega)
    have hlo : hexVal (hexLowerDigit (c.toNat % 16)) = some (c.toNat % 16) :=
      hexVal_hexLowerDigit _ (by omega)
    rw [readStringBody.eq_def]
    simp only [List.cons_append, List.nil_append]
    simp [hhi, hlo, show hexVal '0' = some 0 from by decide]
    rw [show c.toNat / 16 * 16 + c.toNat % 16 = c.toNat from by omega, Char.ofNat_toNat]
  · rw [show escapeChar c = [c] from by
      simp [escapeChar, h1, h2, h3, h4, h5, h6, h7, h8]]
    show readStringBody (c :: tail) acc = readStringBody tail (c :: acc)
    rw [readStringBody.eq_def]
    simp [h1, h2]

theorem readStringBody_escape (cs acc rest : List Char) :
    readStringBody (escapeList cs ++ ('"' :: rest)) acc =
      some (String.mk (acc.reverse ++ cs), rest) := by
  induction cs generalizing acc with
  | nil =>
    rw [show escapeList [] ++ ('"' :: rest) = '"' :: rest from rfl, readStringBody.eq_def]
    simp
  | cons c cs ih =>
    rw [escapeList, List.append_assoc, readStringBody_escapeChar, ih]
    simp

theorem quoteString_roundtrip (s : String) (rest : List Char) :
    readStringBody (escapeList s.data ++ ('"' :: rest)) [] = some (s, rest) := by
  rw [readStringBody_escape]
  cases s with
  | mk data => rfl

/-! ## JSON reader lemmas: numbers -/

theorem digitChar_isDigit : ∀ d : Nat, d < 10 → isDigitCh (digitChar d) = true := by
  decide

theorem digitChar_toNat : ∀ d : Nat, d < 10 → (digitChar d).toNat = 48 + d := by
  decide

theorem digit_ne_minus (c : Char) (h : isDigitCh c = true) : c ≠ '-' := by
  intro he
  subst he
  exact Bool.noConfusion h

theorem natToCharsAux_all_digits :
    ∀ (fuel n : Nat), n < fuel → (natToCharsAux fuel n).all isDigitCh = true := by
  intro fuel
  induction fuel with
  | zero => intro n h; omega
  | succ f ih =>
    intro n h
    by_cases h10 : n < 10
    · simp [natToCharsAux, h10, digitChar_isDigit n h10]
    · have hrec := ih (n / 10) (by omega)
      simp [natToCharsAux, h10, List.all_append, hrec,
        digitChar_isDigit (n % 10) (by omega)]

theorem natToCharsAux_head :
    ∀ (fuel n : Nat), n < fuel →
      ∃ d ds, natToCharsAux fuel n = d :: ds ∧ isDigitCh d = true := by
  intro fuel
  induction fuel with
  | zero => intro n h; omega
  | succ f ih =>
    intro n h
    by_cases h10 : n < 10
    · exact ⟨digitChar n, [], by simp [natToCharsAux, h10], digitChar_isDigit n h10⟩
    · obtain ⟨d, ds, hds, hd⟩ := ih (n / 10) (by omega)
      refine ⟨d, ds ++ [digitChar (n % 10)], ?_, hd⟩
      simp [natToCharsAux, h10, hds]

theorem readDigits_append :
    ∀ (ds rest : List Char) (acc : Nat), ds.all isDigitCh = true →
      headNotDigit rest = true →
      readDigits (ds ++ rest) acc =
        (ds.foldl (fun a c => a * 10 + (c.toNat - 48)) acc, rest) := by
  intro ds
  induction ds with
  | nil =>
    intro rest acc _ hr
    cases rest with
    | nil => rfl
    | cons c rest' =>
      simp only [headNotDigit, Bool.not_eq_true'] at hr
      simp [readDigits, hr]
  | cons d ds ih =>
    intro rest acc hall hr
    rw [List.all_cons, Bool.and_eq_true] at hall
    rw [List.cons_append, readDigits.eq_def]
    simp only [hall.1, if_true]
    rw [ih rest _ hall.2 hr, List.foldl_cons]

theorem foldl_natToCharsAux :
    ∀ (fuel n acc : Nat), n < fuel →
      (natToCharsAux fuel n).foldl (fun a c => a * 10 + (c.toNat - 48)) acc =
        acc * 10 ^ (natToCharsAux fuel n).length + n := by
  intro fuel
  induction fuel with
  | zero => intro n acc h; omega
  | succ f ih =>
    intro n acc h
    by_cases h10 : n < 10
    · simp [natToCharsAux, h10, digitChar_toNat n h10]
    · have hlen : (natToCharsAux (f + 1) n).length =
          (natToCharsAux f (n / 10)).length + 1 := by
        simp [natToCharsAux, h10]
      rw [show natToCharsAux (f + 1) n =
          natToCharsAux f (n / 10) ++ [digitChar (n % 10)] from by
        simp [natToCharsAux, h10]]
      rw [List.foldl_append, ih (n / 10) acc (by omega), List.foldl_cons, List.foldl_nil,
        digitChar_toNat (n % 10) (by omega)]
      have hsub : 48 + n % 10 - 48 = n % 10 := by omega
      rw [hsub, List.length_append, List.length_cons, List.length_nil]
      rw [Nat.add_mul, Nat.pow_succ, ← Nat.mul_assoc, Nat.add_assoc]
      exact congrArg (fun x => acc * 10 ^ (natToCharsAux f (n / 10)).length * 10 + x)
        (by omega)

theorem readNumber_natToChars (n : Nat) (rest : List Char)
    (hr : headNotDigit rest = true) :
    readNumber (natToChars n ++ rest) = some ((n : Int), rest) := by
  obtain ⟨d, ds, hds, hd⟩ := natToCharsAux_head (n + 1) n (by omega)
  have hall : (natToChars n).all isDigitCh = true := natToCharsAux_all_digits (n + 1) n (by omega)
  have hval := readDigits_append (natToChars n) rest 0 hall hr
  rw [show List.foldl (fun a c => a * 10 + (c.toNat - 48)) 0 (natToChars n) =
      0 * 10 ^ (natToChars n).length + n from
    foldl_natToCharsAux (n + 1) n 0 (by omega)] at hval
  rw [Nat.zero_mul, Nat.zero_add] at hval
  rw [show natToChars n = d :: ds from hds] at hval ⊢
  rw [List.cons_append, readNumber.eq_def]
  simp only [if_neg (digit_ne_minus d hd), hd, if_true]
  rw [show (d :: ds) ++ rest = d :: (ds ++ rest) from rfl] at hval
  rw [hval]

theorem readNumber_intToChars (n : Int) (rest : List Char)
    (hr : headNotDigit rest = true) :
    readNumber (intToChars n ++ rest) = some (n, rest) := by
  by_cases hneg : n < 0
  · rw [show intToChars n = '-' :: natToChars (-n).toNat from by
      simp [intToChars, hneg]]
    obtain ⟨d, ds, hds, hd⟩ := natToCharsAux_head ((-n).toNat + 1) (-n).toNat (by omega)
    have hall : (natToChars (-n).toNat).all isDigitCh = true :=
      natToCharsAux_all_digits ((-n).toNat + 1) (-n).toNat (by omega)
    have hval := readDigits_append (natToChars (-n).toNat) rest 0 hall hr
    rw [show List.foldl (fun a c => a * 10 + (c.toNat - 48)) 0 (natToChars (-n).toNat) =
        0 * 10 ^ (natToChars (-n).toNat).length + (-n).toNat from
      foldl_natToCharsAux ((-n).toNat + 1) (-n).toNat 0 (by omega)] at hval
    rw [Nat.zero_mul, Nat.zero_add] at hval
    rw [List.cons_append, readNumber.eq_def]
    simp only [if_pos rfl]
    rw [show natToChars (-n).toNat = d :: ds from hds]
    rw [List.cons_append]
    simp only [hd, if_true]
    rw [show d :: (ds ++ rest) = (d :: ds) ++ rest from rfl, ← hds,
      show readDigits (natToCharsAux ((-n).toNat + 1) (-n).toNat ++ rest) 0 =
        ((-n).toNat, rest) from hval]
    have : ((((-n).toNat : Nat) : Int)) = -n := Int.toNat_of_nonneg (by omega)
    rw [this]
    simp
  · rw [show intToChars n = natToChars n.toNat from by simp [intToChars, hneg]]
    rw [readNumber_natToChars n.toNat rest hr]
    have : ((n.toNat : Nat) : Int) = n := Int.toNat_of_nonneg (by omega)
    rw [this]

/-! ## JSON reader lemmas: printed heads and sizes -/

theorem spacesL_all_ws (n : Nat) : (spacesL n).all isWsChar = true := by
  rw [List.all_eq_true]
  intro c hc
  have hcs : c = ' ' := List.eq_of_mem_replicate hc
  subst hcs
  decide

theorem skipWs_pre_spaces (pre : List Char) (hpre : pre.all isWsChar = true)
    (n : Nat) (X : List Char) :
    skipWs (pre ++ (spacesL n ++ X)) = skipWs X := by
  rw [skipWs_append_ws pre _ hpre, skipWs_append_ws (spacesL n) X (spacesL_all_ws n)]

theorem digit_not_ws (c : Char) (h : isDigitCh c = true) : isWsChar c = false := by
  cases hws : isWsChar c with
  | false => rfl
  | true => exact absurd h (by simp [ws_not_digit c hws])

theorem numHead_props (c : Char) (h : c = '-' ∨ isDigitCh c = true) :
    isWsChar c = false ∧ c ≠ '"' ∧ c ≠ '[' ∧ c ≠ '\x7b' ∧ c ≠ 't' ∧ c ≠ 'f' ∧ c ≠ 'n' := by
  rcases h with rfl | h
  · decide
  · have hne : ∀ x : Char, isDigitCh x = false → c ≠ x := by
      intro x hx he
      subst he
      rw [h] at hx
      exact Bool.noConfusion hx
    exact ⟨digit_not_ws c h, hne _ (by decide), hne _ (by decide), hne _ (by decide),
      hne _ (by decide), hne _ (by decide), hne _ (by decide)⟩

theorem intToChars_head (n : Int) :
    ∃ c cs', intToChars n = c :: cs' ∧ (c = '-' ∨ isDigitCh c = true) := by
  by_cases hneg : n < 0
  · exact ⟨'-', natToChars (-n).toNat, by simp [intToChars, hneg], Or.inl rfl⟩
  · obtain ⟨d, ds, hds, hd⟩ := natToCharsAux_head (n.toNat + 1) n.toNat (by omega)
    refine ⟨d, ds, ?_, Or.inr hd⟩
    rw [show intToChars n = natToChars n.toNat from by simp [intToChars, hneg]]
    exact hds

def headOkCh (c : Char) : Bool :=
  !isWsChar c && !(c == ']') && !(c == '\x7d')

theorem headOkCh_not_ws {c : Char} (h : headOkCh c = true) : isWsChar c = false := by
  simp only [headOkCh, Bool.and_eq_true, Bool.not_eq_true'] at h
  exact h.1.1

theorem headOkCh_ne_rbracket {c : Char} (h : headOkCh c = true) : c ≠ ']' := by
  simp only [headOkCh, Bool.and_eq_true, Bool.not_eq_true', beq_eq_false_iff_ne] at h
  exact h.1.2

theorem headOkCh_ne_rbrace {c : Char} (h : headOkCh c = true) : c ≠ '\x7d' := by
  simp only [headOkCh, Bool.and_eq_true, Bool.not_eq_true', beq_eq_false_iff_ne] at h
  exact h.2

theorem digit_headOk (c : Char) (h : isDigitCh c = true) : headOkCh c = true := by
  have h1 := digit_not_ws c h
  have h2 : c ≠ ']' := by intro he; subst he; exact absurd h (by decide)
  have h3 : c ≠ '\x7d' := by intro he; subst he; exact absurd h (by decide)
  simp [headOkCh, h1, h2, h3]

theorem printJson_head (ind : Nat) (v : Jval) :
    ∃ c cs', printJson ind v = c :: cs' ∧ headOkCh c = true := by
  cases v with
  | jstr s => exact ⟨'"', _, rfl, by decide⟩
  | jnum n =>
    obtain ⟨c, cs', hc, hor⟩ := intToChars_head n
    refine ⟨c, cs', hc, ?_⟩
    rcases hor with rfl | h
    · decide
    · exact digit_headOk c h
  | jbool b =>
    cases b with
    | true => exact ⟨'t', _, rfl, by decide⟩
    | false => exact ⟨'f', _, rfl, by decide⟩
  | jnull => exact ⟨'n', _, rfl, by decide⟩
  | jarr es =>
    cases es with
    | anil => exact ⟨'[', _, rfl, by decide⟩
    | acons e es => exact ⟨'[', _, rfl, by decide⟩
  | jobj fs =>
    cases fs with
    | onil => exact ⟨'\x7b', _, rfl, by decide⟩
    | ocons k v fs => exact ⟨'\x7b', _, rfl, by decide⟩

theorem quoteString_length (s : String) : 2 ≤ (quoteString s).length := by
  simp [quoteString]

mutual

theorem jsize_le_print (ind : Nat) (v : Jval) : jsize v ≤ (printJson ind v).length := by
  cases v with
  | jstr s =>
    have h := quoteString_length s
    simp only [jsize, printJson]
    omega
  | jnum n =>
    obtain ⟨c, cs', hc, _⟩ := intToChars_head n
    simp only [jsize, printJson, hc, List.length_cons]
    omega
  | jbool b => cases b <;> simp [jsize, printJson]
  | jnull => simp [jsize, printJson]
  | jarr es =>
    cases es with
    | anil => simp [jsize, asize, printJson]
    | acons e es2 =>
      have h := asize_le_items (ind + 2) e es2
      simp only [jsize, printJson, List.length_cons, List.length_append]
      omega
  | jobj fs =>
    cases fs with
    | onil => simp [jsize, osize, printJson]
    | ocons k v2 fs2 =>
      have h := osize_le_fields (ind + 2) k v2 fs2
      simp only [jsize, printJson, List.length_cons, List.length_append]
      omega
termination_by sizeOf v

theorem asize_le_items (ind : Nat) (e : Jval) (es : Jarr) :
    asize (Jarr.acons e es) ≤ (printItems ind (Jarr.acons e es)).length + 2 := by
  cases es with
  | anil =>
    have h := jsize_le_print ind e
    simp only [asize, printItems, List.length_append]
    omega
  | acons e2 es2 =>
    have h1 := jsize_le_print ind e
    have h2 := asize_le_items ind e2 es2
    simp only [asize, printItems, List.length_append, List.length_cons] at h2 ⊢
    omega
termination_by sizeOf (Jarr.acons e es)

theorem osize_le_fields (ind : Nat) (k : String) (v : Jval) (fs : Jobj) :
    osize (Jobj.ocons k v fs) ≤ (printFields ind (Jobj.ocons k v fs)).length + 2 := by
  cases fs with
  | onil =>
    have h := jsize_le_print ind v
    simp only [osize, printFields, List.length_append, List.length_cons]
    omega
  | ocons k2 v2 fs2 =>
    have h1 := jsize_le_print ind v
    have h2 := osize_le_fields ind k2 v2 fs2
    simp only [osize, printFields, List.length_append, List.length_cons] at h2 ⊢
    omega
termination_by sizeOf (Jobj.ocons k v fs)

end

/-! ## The print-then-read round trip -/

theorem skipWs_items_head (ind : Nat) (e : Jval) (es : Jarr) (X : List Char) :
    ∃ c0 tl, skipWs (printItems ind (Jarr.acons e es) ++ X) = c0 :: tl ∧
      headOkCh c0 = true := by
  obtain ⟨c0, cs0, hc0, hok⟩ := printJson_head ind e
  refine ⟨c0, cs0 ++ (((match es with
    | Jarr.anil => ([] : List Char)
    | Jarr.acons _ _ => [',', '\n']) ++ printItems ind es) ++ X), ?_, hok⟩
  rw [show printItems ind (Jarr.acons e es) ++ X =
      spacesL ind ++ (printJson ind e ++ (((match es with
        | Jarr.anil => ([] : List Char)
        | Jarr.acons _ _ => [',', '\n']) ++ printItems ind es) ++ X)) from by
    simp [printItems, List.append_assoc]]
  rw [skipWs_append_ws _ _ (spacesL_all_ws ind), hc0, List.cons_append,
    skipWs_cons_of_neg c0 _ (headOkCh_not_ws hok)]

theorem skipWs_fields_head (ind : Nat) (k : String) (v : Jval) (fs : Jobj) (X : List Char) :
    ∃ tl, skipWs (printFields ind (Jobj.ocons k v fs) ++ X) = '"' :: tl := by
  refine ⟨escapeList k.data ++ ('"' :: (':' :: (' ' :: (printJson ind v ++ (((match fs with
    | Jobj.onil => ([] : List Char)
    | Jobj.ocons _ _ _ => [',', '\n']) ++ printFields ind fs) ++ X))))), ?_⟩
  rw [show printFields ind (Jobj.ocons k v fs) ++ X =
      spacesL ind ++ ('"' :: (escapeList k.data ++ ('"' :: (':' :: (' ' :: (printJson ind v ++
        (((match fs with
          | Jobj.onil => ([] : List Char)
          | Jobj.ocons _ _ _ => [',', '\n']) ++ printFields ind fs) ++ X))))))) from by
    simp [printFields, quoteString, List.append_assoc]]
  rw [skipWs_append_ws _ _ (spacesL_all_ws ind), skipWs_cons_of_neg '"' _ (by decide)]

theorem nl_spaces_all_ws (n : Nat) : ('\n' :: spacesL n).all isWsChar = true := by
  rw [List.all_cons, spacesL_all_ws]
  decide

mutual

theorem read_print_val (v : Jval) (ind fuel : Nat) (rest : List Char)
    (hf : jsize v ≤ fuel) (hrest : headNotDigit rest = true) :
    readVal fuel (printJson ind v ++ rest) = some (v, rest) := by
  cases fuel with
  | zero =>
    exfalso
    have hpos : 1 ≤ jsize v := by cases v <;> simp [jsize]
    omega
  | succ f =>
    cases v with
    | jstr s =>
      rw [show printJson ind (Jval.jstr s) ++ rest =
          '"' :: (escapeList s.data ++ ('"' :: rest)) from by
        simp [printJson, quoteString]]
      simp only [readVal]
      rw [skipWs_cons_of_neg '"' _ (by decide)]
      simp [quoteString_roundtrip s rest]
    | jnum n =>
      obtain ⟨c, cs', hc, hor⟩ := intToChars_head n
      obtain ⟨hws0, hne1, hne2, hne3, hne4, hne5, hne6⟩ := numHead_props c hor
      rw [show printJson ind (Jval.jnum n) = intToChars n from rfl, hc, List.cons_append]
      simp only [readVal]
      rw [skipWs_cons_of_neg c _ hws0]
      simp only [if_neg hne1, if_neg hne2, if_neg hne3, if_neg hne4, if_neg hne5, if_neg hne6]
      rw [show c :: (cs' ++ rest) = intToChars n ++ rest from by rw [hc, List.cons_append]]
      rw [readNumber_intToChars n rest hrest]
      rfl
    | jbool b =>
      cases b with
      | true =>
        rw [show printJson ind (Jval.jbool true) ++ rest =
            ('t' :: ('r' :: ('u' :: ('e' :: rest)))) from rfl]
        simp only [readVal]
        rw [skipWs_cons_of_neg 't' _ (by decide)]
        simp
      | false =>
        rw [show printJson ind (Jval.jbool false) ++ rest =
            ('f' :: ('a' :: ('l' :: ('s' :: ('e' :: rest))))) from rfl]
        simp only [readVal]
        rw [skipWs_cons_of_neg 'f' _ (by decide)]
        simp
    | jnull =>
      rw [show printJson ind Jval.jnull ++ rest =
          ('n' :: ('u' :: ('l' :: ('l' :: rest)))) from rfl]
      simp only [readVal]
      rw [skipWs_cons_of_neg 'n' _ (by decide)]
      simp
    | jarr es =>
      cases es with
      | anil =>
        rw [show printJson ind (Jval.jarr Jarr.anil) ++ rest = '[' :: ']' :: rest from rfl]
        simp only [readVal]
        rw [skipWs_cons_of_neg '[' _ (by decide)]
        simp [skipWs_cons_of_neg ']' rest (by decide)]
      | acons e es =>
        rw [show printJson ind (Jval.jarr (Jarr.acons e es)) ++ rest =
            '[' :: ('\n' :: (printItems (ind + 2) (Jarr.acons e es) ++
              ('\n' :: (spacesL ind ++ (']' :: rest))))) from by
          simp [printJson]]
        simp only [readVal]
        rw [skipWs_cons_of_neg '[' _ (by decide)]
        have hT : skipWs ('\n' :: (printItems (ind + 2) (Jarr.acons e es) ++
            ('\n' :: (spacesL ind ++ (']' :: rest))))) =
            skipWs (printItems (ind + 2) (Jarr.acons e es) ++
              ('\n' :: (spacesL ind ++ (']' :: rest)))) :=
          skipWs_append_ws ['\n'] _ (by decide)
        obtain ⟨c0, tl, hc0, hok⟩ :=
          skipWs_items_head (ind + 2) e es ('\n' :: (spacesL ind ++ (']' :: rest)))
        have hws0 := headOkCh_not_ws hok
        have hbr0 := headOkCh_ne_rbracket hok
        have helems : readElems f (c0 :: tl) = some (Jarr.acons e es, rest) := by
          rw [readElems_congr f (c0 :: tl)
            ('\n' :: (printItems (ind + 2) (Jarr.acons e es) ++
              ('\n' :: (spacesL ind ++ (']' :: rest)))))
            (by rw [skipWs_cons_of_neg c0 _ hws0, hT, hc0])]
          exact read_print_elems e es (ind + 2) f ['\n'] ('\n' :: spacesL ind) rest
            (by decide) (nl_spaces_all_ws ind) (by
              simp [jsize] at hf; omega)
        have hc0t := hT.trans hc0
        simp [hc0t, hbr0, helems]
    | jobj fs =>
      cases fs with
      | onil =>
        rw [show printJson ind (Jval.jobj Jobj.onil) ++ rest = '\x7b' :: '\x7d' :: rest from rfl]
        simp only [readVal]
        rw [skipWs_cons_of_neg '\x7b' _ (by decide)]
        simp [skipWs_cons_of_neg '\x7d' rest (by decide)]
      | ocons k v2 fs =>
        rw [show printJson ind (Jval.jobj (Jobj.ocons k v2 fs)) ++ rest =
            '\x7b' :: ('\n' :: (printFields (ind + 2) (Jobj.ocons k v2 fs) ++
              ('\n' :: (spacesL ind ++ ('\x7d' :: rest))))) from by
          simp [printJson]]
        simp only [readVal]
        rw [skipWs_cons_of_neg '\x7b' _ (by decide)]
        have hT : skipWs ('\n' :: (printFields (ind + 2) (Jobj.ocons k v2 fs) ++
            ('\n' :: (spacesL ind ++ ('\x7d' :: rest))))) =
            skipWs (printFields (ind + 2) (Jobj.ocons k v2 fs) ++
              ('\n' :: (spacesL ind ++ ('\x7d' :: rest)))) :=
          skipWs_append_ws ['\n'] _ (by decide)
        obtain ⟨tl, hc0⟩ :=
          skipWs_fields_head (ind + 2) k v2 fs ('\n' :: (spacesL ind ++ ('\x7d' :: rest)))
        have hmems : readMembers f ('"' :: tl) = some (Jobj.ocons k v2 fs, rest) := by
          rw [readMembers_congr f ('"' :: tl)
            ('\n' :: (printFields (ind + 2) (Jobj.ocons k v2 fs) ++
              ('\n' :: (spacesL ind ++ ('\x7d' :: rest)))))
            (by rw [skipWs_cons_of_neg '"' _ (by decide), hT, hc0])]
          exact read_print_members k v2 fs (ind + 2) f ['\n'] ('\n' :: spacesL ind) rest
            (by decide) (nl_spaces_all_ws ind) (by
              simp [jsize] at hf; omega)
        have hc0t := hT.trans hc0
        simp [hc0t, hmems]
termination_by sizeOf v

theorem read_print_elems (e : Jval) (es : Jarr) (ind fuel : Nat) (pre ws rest : List Char)
    (hpre : pre.all isWsChar = true) (hws : ws.all isWsChar = true)
    (hf : asize (Jarr.acons e es) ≤ fuel) :
    readElems fuel (pre ++ (printItems ind (Jarr.acons e es) ++ (ws ++ (']' :: rest)))) =
      some (Jarr.acons e es, rest) := by
  cases fuel with
  | zero => simp [asize] at hf
  | succ f =>
    have hjf : jsize e ≤ f := by simp [asize] at hf; omega
    cases es with
    | anil =>
      have hre : headNotDigit (ws ++ (']' :: rest)) = true :=
        headNotDigit_ws ws ']' rest hws (by decide)
      have hsk : skipWs (pre ++ (printItems ind (Jarr.acons e Jarr.anil) ++
          (ws ++ (']' :: rest)))) = skipWs (printJson ind e ++ (ws ++ (']' :: rest))) := by
        rw [show pre ++ (printItems ind (Jarr.acons e Jarr.anil) ++ (ws ++ (']' :: rest))) =
            pre ++ (spacesL ind ++ (printJson ind e ++ (ws ++ (']' :: rest)))) from by
          simp [printItems, List.append_assoc]]
        rw [skipWs_pre_spaces pre hpre]
      have hv := read_print_val e ind f (ws ++ (']' :: rest)) hjf hre
      have hcs2 : skipWs (ws ++ (']' :: rest)) = ']' :: rest := by
        rw [skipWs_append_ws ws _ hws, skipWs_cons_of_neg ']' _ (by decide)]
      simp only [readElems]
      rw [readVal_congr f _ (printJson ind e ++ (ws ++ (']' :: rest))) hsk, hv]
      simp [hcs2]
    | acons e2 es2 =>
      have hre : headNotDigit (',' :: ('\n' :: (printItems ind (Jarr.acons e2 es2) ++
          (ws ++ (']' :: rest))))) = true := by
        simp [headNotDigit, isDigitCh]
      have hsk : skipWs (pre ++ (printItems ind (Jarr.acons e (Jarr.acons e2 es2)) ++
          (ws ++ (']' :: rest)))) = skipWs (printJson ind e ++ (',' :: ('\n' ::
            (printItems ind (Jarr.acons e2 es2) ++ (ws ++ (']' :: rest)))))) := by
        rw [show pre ++ (printItems ind (Jarr.acons e (Jarr.acons e2 es2)) ++
            (ws ++ (']' :: rest))) =
            pre ++ (spacesL ind ++ (printJson ind e ++ (',' :: ('\n' ::
              (printItems ind (Jarr.acons e2 es2) ++ (ws ++ (']' :: rest))))))) from by
          simp [printItems, List.append_assoc]]
        rw [skipWs_pre_spaces pre hpre]
      have hv := read_print_val e ind f (',' :: ('\n' :: (printItems ind (Jarr.acons e2 es2) ++
        (ws ++ (']' :: rest))))) hjf hre
      have hrec := read_print_elems e2 es2 ind f ['\n'] ws rest (by decide) hws (by
        simp [asize] at hf ⊢; omega)
      simp only [readElems]
      rw [readVal_congr f _ (printJson ind e ++ (',' :: ('\n' ::
        (printItems ind (Jarr.acons e2 es2) ++ (ws ++ (']' :: rest)))))) hsk, hv]
      have hid : skipWs (',' :: ('\n' :: (printItems ind (Jarr.acons e2 es2) ++
          (ws ++ (']' :: rest))))) = ',' :: ('\n' :: (printItems ind (Jarr.acons e2 es2) ++
          (ws ++ (']' :: rest)))) := skipWs_cons_of_neg _ _ (by decide)
      simp only [List.cons_append, List.nil_append] at hrec
      simp [hid, hrec]
termination_by sizeOf (Jarr.acons e es)

theorem read_print_members (k : String) (v : Jval) (fs : Jobj) (ind fuel : Nat)
    (pre ws rest : List Char)
    (hpre : pre.all isWsChar = true) (hws : ws.all isWsChar = true)
    (hf : osize (Jobj.ocons k v fs) ≤ fuel) :
    readMembers fuel (pre ++ (printFields ind (Jobj.ocons k v fs) ++
      (ws ++ ('\x7d' :: rest)))) = some (Jobj.ocons k v fs, rest) := by
  cases fuel with
  | zero => simp [osize] at hf
  | succ f =>
    have hjf : jsize v ≤ f := by simp [osize] at hf; omega
    cases fs with
    | onil =>
      have hsk : skipWs (pre ++ (printFields ind (Jobj.ocons k v Jobj.onil) ++
          (ws ++ ('\x7d' :: rest)))) =
          '"' :: (escapeList k.data ++ ('"' :: (':' :: (' ' :: (printJson ind v ++
            (ws ++ ('\x7d' :: rest))))))) := by
        rw [show pre ++ (printFields ind (Jobj.ocons k v Jobj.onil) ++
            (ws ++ ('\x7d' :: rest))) =
            pre ++ (spacesL ind ++ ('"' :: (escapeList k.data ++ ('"' :: (':' :: (' ' ::
              (printJson ind v ++ (ws ++ ('\x7d' :: rest))))))))) from by
          simp [printFields, quoteString, List.append_assoc]]
        rw [skipWs_pre_spaces pre hpre, skipWs_cons_of_neg '"' _ (by decide)]
      have hv : readVal f (' ' :: (printJson ind v ++ (ws ++ ('\x7d' :: rest)))) =
          some (v, ws ++ ('\x7d' :: rest)) := by
        rw [readVal_congr f _ (printJson ind v ++ (ws ++ ('\x7d' :: rest))) (by
          rw [show (' ' :: (printJson ind v ++ (ws ++ ('\x7d' :: rest)))) =
            [' '] ++ (printJson ind v ++ (ws ++ ('\x7d' :: rest))) from rfl,
            skipWs_append_ws [' '] _ (by decide)])]
        exact read_print_val v ind f _ hjf (headNotDigit_ws ws '\x7d' rest hws (by decide))
      have hid : skipWs (':' :: (' ' :: (printJson ind v ++ (ws ++ ('\x7d' :: rest))))) =
          ':' :: (' ' :: (printJson ind v ++ (ws ++ ('\x7d' :: rest)))) :=
        skipWs_cons_of_neg _ _ (by decide)
      have hcs2 : skipWs (ws ++ ('\x7d' :: rest)) = '\x7d' :: rest := by
        rw [skipWs_append_ws ws _ hws, skipWs_cons_of_neg '\x7d' _ (by decide)]
      simp only [readMembers]
      rw [hsk]
      simp [quoteString_roundtrip k, hid, hv, hcs2]
    | ocons k2 v2 fs2 =>
      have hsk : skipWs (pre ++ (printFields ind (Jobj.ocons k v (Jobj.ocons k2 v2 fs2)) ++
          (ws ++ ('\x7d' :: rest)))) =
          '"' :: (escapeList k.data ++ ('"' :: (':' :: (' ' :: (printJson ind v ++
            (',' :: ('\n' :: (printFields ind (Jobj.ocons k2 v2 fs2) ++
              (ws ++ ('\x7d' :: rest)))))))))) := by
        rw [show pre ++ (printFields ind (Jobj.ocons k v (Jobj.ocons k2 v2 fs2)) ++
            (ws ++ ('\x7d' :: rest))) =
            pre ++ (spacesL ind ++ ('"' :: (escapeList k.data ++ ('"' :: (':' :: (' ' ::
              (printJson ind v ++ (',' :: ('\n' :: (printFields ind (Jobj.ocons k2 v2 fs2) ++
                (ws ++ ('\x7d' :: rest)))))))))))) from by
          simp [printFields, quoteString, List.append_assoc]]
        rw [skipWs_pre_spaces pre hpre, skipWs_cons_of_neg '"' _ (by decide)]
      have hv : readVal f (' ' :: (printJson ind v ++ (',' :: ('\n' ::
          (printFields ind (Jobj.ocons k2 v2 fs2) ++ (ws ++ ('\x7d' :: rest))))))) =
          some (v, ',' :: ('\n' :: (printFields ind (Jobj.ocons k2 v2 fs2) ++
            (ws ++ ('\x7d' :: rest))))) := by
        rw [readVal_congr f _ (printJson ind v ++ (',' :: ('\n' ::
          (printFields ind (Jobj.ocons k2 v2 fs2) ++ (ws ++ ('\x7d' :: rest)))))) (by
          rw [show (' ' :: (printJson ind v ++ (',' :: ('\n' ::
            (printFields ind (Jobj.ocons k2 v2 fs2) ++ (ws ++ ('\x7d' :: rest))))))) =
            [' '] ++ (printJson ind v ++ (',' :: ('\n' ::
              (printFields ind (Jobj.ocons k2 v2 fs2) ++ (ws ++ ('\x7d' :: rest)))))) from rfl,
            skipWs_append_ws [' '] _ (by decide)])]
        exact read_print_val v ind f _ hjf (by simp [headNotDigit, isDigitCh])
      have hid : skipWs (':' :: (' ' :: (printJson ind v ++ (',' :: ('\n' ::
          (printFields ind (Jobj.ocons k2 v2 fs2) ++ (ws ++ ('\x7d' :: rest)))))))) =
          ':' :: (' ' :: (printJson ind v ++ (',' :: ('\n' ::
            (printFields ind (Jobj.ocons k2 v2 fs2) ++ (ws ++ ('\x7d' :: rest))))))) :=
        skipWs_cons_of_neg _ _ (by decide)
      have hid2 : skipWs (',' :: ('\n' :: (printFields ind (Jobj.ocons k2 v2 fs2) ++
          (ws ++ ('\x7d' :: rest))))) = ',' :: ('\n' :: (printFields ind
            (Jobj.ocons k2 v2 fs2) ++ (ws ++ ('\x7d' :: rest)))) :=
        skipWs_cons_of_neg _ _ (by decide)
      have hrec := read_print_members k2 v2 fs2 ind f ['\n'] ws rest (by decide) hws (by
        simp [osize] at hf ⊢; omega)
      simp only [List.cons_append, List.nil_append] at hrec
      simp only [readMembers]
      rw [hsk]
      simp [quoteString_roundtrip k, hid, hv, hid2, hrec]
termination_by sizeOf (Jobj.ocons k v fs)

end

theorem parseJson_stringify2 (v : Jval) : parseJson (stringify2 v) = some v := by
  have hsize := jsize_le_print 0 v
  have h := read_print_val v 0 ((printJson 0 v).length + 1) [] (by omega) rfl
  rw [List.append_nil] at h
  simp only [parseJson]
  rw [show (stringify2 v).data = printJson 0 v from rfl, h]
  rfl

theorem payload_id (t : TaskSnapshot) :
    (objField "id" (structuredPayload t)).bind asString = some t.id := rfl

theorem payload_text (t : TaskSnapshot) :
    (objField "text" (structuredPayload t)).bind asString = some (t.result_text.getD "") := rfl

theorem decodeSegsAux_segsToJarr (l : List SimpleSegment) :
    decodeSegsAux (segsToJarr l) = some l := by
  induction l with
  | nil => rfl
  | cons s ss ih =>
    simp [segsToJarr, decodeSegsAux, show segOfJval (segmentJson s) = some s from rfl, ih]

theorem payload_segments (t : TaskSnapshot) :
    (objField "segments" (structuredPayload t)).bind decodeSegs = some (currentSegments t) := by
  simp [structuredPayload, objField, objFieldAux, decodeSegs,
    decodeSegsAux_segsToJarr]

theorem currentSegments_of_populated (t : TaskSnapshot) (hne : t.segments ≠ [])
    (hend : ∀ seg ∈ t.segments, seg.end_ms.isSome) :
    currentSegments t = t.segments.map (fun seg =>
      (⟨seg.start_ms.getD 0, seg.end_ms.getD 0, seg.text.getD ""⟩ : SimpleSegment)) := by
  have hie : t.segments.isEmpty = false := by
    cases hs : t.segments with
    | nil => exact absurd hs hne
    | cons a l => rfl
  simp only [currentSegments, hie, Bool.false_eq_true, if_false]
  apply List.map_congr_left
  intro seg hmem
  obtain ⟨e, he⟩ := Option.isSome_iff_exists.mp (hend seg hmem)
  simp [he]

/-! ## Claim C3: structured export round trip -/

/-- C3 counterexample: for a task with free text but an empty segment
list, the structured payload (and hence its re-parse) carries the
synthesized fallback segment, not the task's empty segment list, so the
round trip does not reproduce the source segment list. -/
theorem structured_roundtrip_counterexample :
    tNoSegsProbe.segments = [] ∧
    parseJson (exportContent tNoSegsProbe ExportFormat.json) =
      some (structuredPayload tNoSegsProbe) ∧
    (objField "segments" (structuredPayload tNoSegsProbe)).bind decodeSegs =
      some [⟨0, 1500, "Hi"⟩] ∧
    some ([] : List SimpleSegment) ≠ some [(⟨0, 1500, "Hi"⟩ : SimpleSegment)] := by
  refine ⟨rfl, parseJson_stringify2 (structuredPayload tNoSegsProbe), ?_, by decide⟩
  decide

/-- C3 amended: for every task, re-parsing the rendered structured
payload succeeds and reproduces the payload exactly; the payload's id is
the task id, its text is the stored transcript (empty string when null),
and its segment list decodes to `currentSegments` — which equals the
source segments' (start, end, text) projections whenever the task has a
non-empty segment list whose entries all carry end_ms (for a task without
segments the payload instead holds synthesized fallback segments). -/
theorem structured_roundtrip_amended :
    ∀ t : TaskSnapshot,
      parseJson (exportContent t ExportFormat.json) = some (structuredPayload t) ∧
      (objField "id" (structuredPayload t)).bind asString = some t.id ∧
      (objField "text" (structuredPayload t)).bind asString = some (t.result_text.getD "") ∧
      (objField "segments" (structuredPayload t)).bind decodeSegs = some (currentSegments t) ∧
      (t.segments ≠ [] → (∀ seg ∈ t.segments, seg.end_ms.isSome) →
        currentSegments t = t.segments.map (fun seg =>
          (⟨seg.start_ms.getD 0, seg.end_ms.getD 0, seg.text.getD ""⟩ : SimpleSegment))) :=
  fun t => ⟨parseJson_stringify2 (structuredPayload t), payload_id t, payload_text t,
    payload_segments t, currentSegments_of_populated t⟩

/-- Witness for C3's amended claim at a concrete fully-populated task. -/
theorem structured_roundtrip_amended_witness :
    (tSegProbe.segments ≠ [] ∧ ∀ seg ∈ tSegProbe.segments, seg.end_ms.isSome) ∧
    currentSegments tSegProbe = tSegProbe.segments.map (fun seg =>
      (⟨seg.start_ms.getD 0, seg.end_ms.getD 0, seg.text.getD ""⟩ : SimpleSegment)) :=
  ⟨⟨by decide, by decide⟩,
    (structured_roundtrip_amended tSegProbe).2.2.2.2 (by decide) (by decide)⟩
